import Mathlib

/-!
Shallow embedding of the TZOOTZ MIDI Latent Mixer core
(`midi_latent_mixer_node.py`, class `TZOOTZMIDILatentMixer`).

Python floats are modelled by `ℚ`; MIDI tick times, note numbers and
velocities are `ℕ` (they are integers in the source).  The mutable
session object (`self.midi_data`, `self._cached_midi_path`,
`self.track_states`, `self.current_frame`) is modelled as an explicit
`MixSession` record threaded through `mix_with_midi`, and the external MIDI
parser (`mido` + `parse_midi_file`) is an abstract function
`String → Option ParsedMidi`; `mix_with_midi` additionally reports how many
parse invocations the call performed, so that caching claims can be
stated.  Python dictionaries mutated by `apply_controlnet_to_conditioning`
are modelled by an explicit heap of dictionary values addressed by `ℕ`.
-/

namespace MidiMixer

/-- The two event kinds retained by `parse_midi_file`
(`msg.type in ['note_on', 'note_off']`). -/
inductive EventKind where
  | note_on : EventKind
  | note_off : EventKind
deriving DecidableEq, Repr

/-- One entry of a per-track event list as built by `parse_midi_file`:
`{'time': current_time, 'type': msg.type, 'note': msg.note,
'velocity': msg.velocity}`.  `time` is the accumulated absolute tick. -/
structure MidiEvent where
  time : ℕ
  kind : EventKind
  note : ℕ
  velocity : ℕ
deriving DecidableEq, Repr

/-- The dictionary returned by `parse_midi_file`:
`{'tracks': tracks_data, 'tempo': tempo, 'ticks_per_beat': ..., 'bpm': bpm}`. -/
structure ParsedMidi where
  tracks : List (List MidiEvent)
  tempo : ℚ
  ticks_per_beat : ℚ
  bpm : ℚ
deriving DecidableEq, Repr

/-- The four values of the `trigger_mode` combo input. -/
inductive TriggerMode where
  | velocity : TriggerMode
  | pulse : TriggerMode
  | hold : TriggerMode
  | toggle : TriggerMode
deriving DecidableEq, Repr

/-- Frame-to-MIDI-time conversion inside `get_track_strength_at_frame`:
`seconds = frame / fps; midi_time = seconds * 1000000 / tempo * ticks_per_beat`. -/
def frameToTicks (frame fps tempo tpb : ℚ) : ℚ :=
  frame / fps * 1000000 / tempo * tpb

/-- Whether `later` terminates the note of `e`: same note number and
(`type == 'note_off'` or `velocity == 0`). -/
def isOffFor (e later : MidiEvent) : Prop :=
  later.note = e.note ∧ (later.kind = EventKind.note_off ∨ later.velocity = 0)

instance (e later : MidiEvent) : Decidable ( isOffFor e later) := by
  unfold isOffFor; infer_instance

/-- The inner scan of `get_track_strength_at_frame`: the time of the first
event after the NoteOn `e` (its successors being `rest`) that terminates
`e`'s note, if any. -/
def noteOffTime (e : MidiEvent) (rest : List MidiEvent) : Option ℕ :=
  (rest.find? (fun later => decide ( isOffFor e later))).map MidiEvent.time

/-- The `active_notes` list built by `get_track_strength_at_frame`: every
NoteOn with positive velocity whose time is `≤ midiTime` and that has not
been terminated at `midiTime` by a later event on the same note. -/
def activeNotes (track : List MidiEvent) (midiTime : ℚ) : List MidiEvent :=
  match track with
  | [] => []
  | e :: rest =>
    if (e.time : ℚ) ≤ midiTime ∧ e.kind = EventKind.note_on ∧ 0 < e.velocity then
      match noteOffTime e rest with
      | none => e :: activeNotes rest midiTime
      | some off =>
        if midiTime < (off : ℚ) then e :: activeNotes rest midiTime
        else activeNotes rest midiTime
    else activeNotes rest midiTime

/-- Python's `max(active_notes, key=lambda x: x['time'])`: the first
element of maximal time (later elements replace the candidate only when
strictly greater). -/
def mostRecent (cur : MidiEvent) (rest : List MidiEvent) : MidiEvent :=
  match rest with
  | [] => cur
  | e :: rest => mostRecent (if cur.time < e.time then e else cur) rest

/-- The Pulse branch:
`time_since = (midi_time - most_recent['time']) / ticks_per_beat`;
`decay = max(0, 1.0 - time_since * decay_rate)`;
`(most_recent['velocity'] / 127.0) * decay`. -/
def pulseStrength (velocity time : ℕ) (midiTime tpb decayRate : ℚ) : ℚ :=
  ((velocity : ℚ) / 127) * max 0 (1 - (midiTime - (time : ℚ)) / tpb * decayRate)

/-- The Toggle branch's count:
`sum(1 for e in track_data if e['time'] <= midi_time and
e['type'] == 'note_on' and e['velocity'] > 0)`. -/
def noteOnCount (track : List MidiEvent) (midiTime : ℚ) : ℕ :=
  (track.filter (fun e =>
    decide ((e.time : ℚ) ≤ midiTime ∧ e.kind = EventKind.note_on ∧ 0 < e.velocity))).length

/-- The part of `get_track_strength_at_frame` below the `midi_time`
conversion: builds `active_notes`, returns 0 whenever it is empty (for
every mode, the Toggle branch included), otherwise dispatches on the
trigger mode. -/
def strengthFromActive (track : List MidiEvent) (midiTime : ℚ)
    (mode : TriggerMode) (tpb decayRate : ℚ) : ℚ :=
  match activeNotes track midiTime with
  | [] => 0
  | a :: rest =>
    match mode with
    | TriggerMode.velocity =>
      ((a :: rest).map (fun n => (n.velocity : ℚ) / 127)).sum / ((a :: rest).length : ℚ)
    | TriggerMode.pulse =>
      pulseStrength (mostRecent a rest).velocity (mostRecent a rest).time midiTime tpb decayRate
    | TriggerMode.hold => 1
    | TriggerMode.toggle =>
      if noteOnCount track midiTime % 2 = 1 then 1 else 0

/-- `get_track_strength_at_frame(track_data, frame, fps, trigger_mode,
ticks_per_beat, tempo, decay_rate)`: returns 0 for an empty track
(`if not track_data`), else converts the frame to a MIDI tick position
and reduces the active-note set under the trigger mode. -/
def get_track_strength_at_frame (track : List MidiEvent) (frame fps : ℚ)
    (mode : TriggerMode) (tpb tempo decayRate : ℚ) : ℚ :=
  match track with
  | [] => 0
  | _ :: _ => strengthFromActive track (frameToTicks frame fps tempo tpb) mode tpb decayRate

/-- The mutable session state of `TZOOTZMIDILatentMixer`:
`self.midi_data`, `self._cached_midi_path`, `self.track_states`
(a list of 4 floats), `self.current_frame`. -/
structure MixSession where
  midi_data : Option ParsedMidi
  cached_midi_path : Option String
  track_states : List ℚ
  current_frame : ℕ
deriving DecidableEq, Repr

/-- `__init__`: no cached data, no cached path, `[0.0, 0.0, 0.0, 0.0]`. -/
def MixSession.init : MixSession :=
  { midi_data := none, cached_midi_path := none
    track_states := [0, 0, 0, 0], current_frame := 0 }

/-- One iteration of the per-track loop of `mix_with_midi`:
`if i < len(tracks): self.track_states[i] = strength * mix_strength`
(slots with no corresponding parsed track are left untouched). -/
def updateStep (m : ParsedMidi) (frame fps : ℕ) (mode : TriggerMode)
    (mix_strength decay_rate : ℚ) (st : List ℚ) (i : ℕ) : List ℚ :=
  if h : i < m.tracks.length then
    st.set i (get_track_strength_at_frame (m.tracks.get ⟨i, h⟩) (frame : ℚ) (fps : ℚ)
      mode m.ticks_per_beat m.tempo decay_rate * mix_strength)
  else st

/-- The per-track loop of `mix_with_midi`: `for i in range(4): ...`. -/
def updateStates (m : ParsedMidi) (states : List ℚ) (frame fps : ℕ)
    (mode : TriggerMode) (mix_strength decay_rate : ℚ) : List ℚ :=
  (List.range 4).foldl (updateStep m frame fps mode mix_strength decay_rate) states

/-- What one `mix_with_midi` call yields for the claims: the new session
state, the strengths rendered into `mix_values` (= `self.track_states`),
the `bpm` shown in the debug output, and how many times `parse_midi_file`
was invoked during the call. -/
structure UpdateResult where
  session : MixSession
  strengths : List ℚ
  bpm : ℚ
  parses : ℕ
deriving Repr

/-- Well-formedness of parsed MIDI data as `parse_midi_file` produces it:
positive tempo (µs per beat) and resolution, and MIDI velocities of at
most 127 (the MIDI data model guarantees velocity bytes are 0–127). -/
def WFMidi (m : ParsedMidi) : Prop :=
  0 < m.tempo ∧ 0 < m.ticks_per_beat ∧
  ∀ tr ∈ m.tracks, ∀ e ∈ tr, e.velocity ≤ 127

instance (m : ParsedMidi) : Decidable (WFMidi m) := by
  unfold WFMidi; infer_instance

/-- `bpm = self.midi_data['bpm'] if self.midi_data else 120.0`. -/
def mdBpm (md : Option ParsedMidi) : ℚ :=
  match md with
  | some m => m.bpm
  | none => 120

/-- The track states after the `if self.midi_data:` block: the per-track
loop runs only when parsed data is present, else the stored states are
left as they were. -/
def stateStrengths (md : Option ParsedMidi) (states : List ℚ) (frame fps : ℕ)
    (mode : TriggerMode) (mix_strength decay_rate : ℚ) : List ℚ :=
  match md with
  | some m => updateStates m states frame fps mode mix_strength decay_rate
  | none => states

/-- The state/strength core of `mix_with_midi`.  `parse` abstracts
`parse_midi_file` (returning `none` on failure, exactly as the Python
returns `None`).  Re-parses only `if midi_path and
(self._cached_midi_path != midi_path)`; an empty `midi_path` is falsy, and
a `None` cached path compares unequal to every string. -/
def mix_with_midi (parse : String → Option ParsedMidi) (s : MixSession)
    (midi_path : String) (frame fps : ℕ) (mode : TriggerMode)
    (mix_strength decay_rate : ℚ) : UpdateResult :=
  let reparse := midi_path ≠ "" ∧ s.cached_midi_path ≠ some midi_path
  let md := if reparse then parse midi_path else s.midi_data
  let cp := if reparse then some midi_path else s.cached_midi_path
  let parses := if reparse then 1 else 0
  let states := stateStrengths md s.track_states frame fps mode mix_strength decay_rate
  { session :=
      { midi_data := md, cached_midi_path := cp
        track_states := states, current_frame := frame }
    strengths := states, bpm := mdBpm md, parses := parses }

/-- One entry of the `cnets` list built by `apply_controlnet_to_conditioning`:
`[control_net, control_hint, final_strength, 0.0, 1.0]`.  The control net
handle and the prepared control hint tensor (the `movedim`-reordered
image) are opaque to the mixing logic and modelled as identifiers. -/
structure ControlTuple where
  net : ℕ
  hint : ℕ
  strength : ℚ
  start_percent : ℚ
  end_percent : ℚ
deriving DecidableEq, Repr

/-- The value of a conditioning entry's dictionary `t[1]`: the `'control'`
key (absent or a list of control tuples) plus an opaque residue standing
for every other key/value pair, carried verbatim by `dict.copy()`. -/
structure CondDict where
  control : Option (List ControlTuple)
  rest : ℕ
deriving DecidableEq, Repr

/-- One conditioning entry `t = [t[0], t[1]]`: the opaque tensor `t[0]`
and the heap address of the mutable dictionary `t[1]`. -/
structure CondEntry where
  tensor : ℕ
  dict : ℕ
deriving DecidableEq, Repr

/-- The heap of Python dictionary objects: contents by address, plus the
next fresh address.  Addresses `≥ next` are not yet allocated. -/
structure Heap where
  mem : ℕ → CondDict
  next : ℕ

/-- `dict.copy()`: allocate a fresh address holding the same value. -/
def Heap.alloc (h : Heap) (d : CondDict) : Heap × ℕ :=
  ({ mem := Function.update h.mem h.next d, next := h.next + 1 }, h.next)

/-- The `'control'` update applied to the copied dictionary:
`n[1]['control'] = n[1]['control'] + cnets` when the key exists, else
`n[1]['control'] = cnets` (Python `+` on lists builds a new list, so the
original control list value is untouched). -/
def withControl (d : CondDict) (cnets : List ControlTuple) : CondDict :=
  match d.control with
  | some cs => { d with control := some (cs ++ cnets) }
  | none => { d with control := some cnets }

/-- The per-entry body of the two loops in
`apply_controlnet_to_conditioning`: `n = [t[0], t[1].copy()]`, then the
`'control'` key of the copy is set, and `n` is appended to the output. -/
def applyOne (cnets : List ControlTuple) (h : Heap) (t : CondEntry) : Heap × CondEntry :=
  let copied := h.alloc (h.mem t.dict)
  let h1 := copied.1
  let addr := copied.2
  let h2 : Heap := { mem := Function.update h1.mem addr (withControl (h1.mem addr) cnets)
                     next := h1.next }
  (h2, { tensor := t.tensor, dict := addr })

/-- One of the two `for t in positive/negative` loops, building `c_pos`
(resp. `c_neg`) in order. -/
def applyAll (cnets : List ControlTuple) (h : Heap) :
    List CondEntry → Heap × List CondEntry
  | [] => (h, [])
  | t :: ts =>
    let hn := applyOne cnets h t
    let rest := applyAll cnets hn.1 ts
    (rest.1, hn.2 :: rest.2)

/-- `apply_controlnet_to_conditioning(positive, negative, control_net,
image, strength, track_strength)`: when a control net and image are
supplied and both strengths are positive, builds
`cnets = [[control_net, control_hint, strength * track_strength, 0.0, 1.0]]`
and maps both conditioning lists through the copy-and-extend loop;
otherwise returns the inputs unchanged. -/
def apply_controlnet_to_conditioning (h : Heap)
    (positive negative : List CondEntry) (control_net image : Option ℕ)
    (strength track_strength : ℚ) : Heap × List CondEntry × List CondEntry :=
  match control_net, image with
  | some cn, some img =>
    if 0 < strength ∧ 0 < track_strength then
      let cnets : List ControlTuple := [⟨cn, img, strength * track_strength, 0, 1⟩]
      let pos := applyAll cnets h positive
      let neg := applyAll cnets pos.1 negative
      (neg.1, pos.2, neg.2)
    else (h, positive, negative)
  | _, _ => (h, positive, negative)

end MidiMixer


namespace MidiMixer

lemma activeNotes_cons_mem (x : MidiEvent) {rest : List MidiEvent} {t : ℚ} {e : MidiEvent}
    (h : e ∈ activeNotes rest t) : e ∈ activeNotes (x :: rest) t := by
  simp only [activeNotes]
  split
  · split
    · exact List.mem_cons_of_mem _ h
    · split
      · exact List.mem_cons_of_mem _ h
      · exact h
  · exact h

lemma mem_activeNotes {seq : List MidiEvent} {t : ℚ} {e : MidiEvent} :
    e ∈ activeNotes seq t ↔
      ∃ pre post, seq = pre ++ e :: post ∧
        (e.time : ℚ) ≤ t ∧ e.kind = EventKind.note_on ∧ 0 < e.velocity ∧
        ∀ off, noteOffTime e post = some off → t < (off : ℚ) := by
  induction seq with
  | nil => simp [activeNotes]
  | cons x rest ih =>
    have shift : e ∈ activeNotes rest t →
        ∃ pre post, x :: rest = pre ++ e :: post ∧
          (e.time : ℚ) ≤ t ∧ e.kind = EventKind.note_on ∧ 0 < e.velocity ∧
          ∀ off, noteOffTime e post = some off → t < (off : ℚ) := by
      intro hm
      obtain ⟨pre, post, heq, h1, h2, h3, h4⟩ := ih.mp hm
      exact ⟨x :: pre, post, by rw [heq]; rfl, h1, h2, h3, h4⟩
    constructor
    · intro h
      simp only [activeNotes] at h
      by_cases hc : (x.time : ℚ) ≤ t ∧ x.kind = EventKind.note_on ∧ 0 < x.velocity
      · rw [if_pos hc] at h
        rcases hoff : noteOffTime x rest with _ | off
        · rw [hoff] at h
          rcases List.mem_cons.mp h with he | hm
          · subst he
            exact ⟨[], rest, rfl, hc.1, hc.2.1, hc.2.2,
              fun off h' => by rw [hoff] at h'; cases h'⟩
          · exact shift hm
        · simp only [hoff] at h
          by_cases hlt : t < (off : ℚ)
          · rw [if_pos hlt] at h
            rcases List.mem_cons.mp h with he | hm
            · subst he
              refine ⟨[], rest, rfl, hc.1, hc.2.1, hc.2.2, fun off' h' => ?_⟩
              rw [hoff] at h'
              cases h'
              exact hlt
            · exact shift hm
          · rw [if_neg hlt] at h
            exact shift h
      · rw [if_neg hc] at h
        exact shift h
    · rintro ⟨pre, post, heq, h1, h2, h3, h4⟩
      cases pre with
      | nil =>
        simp only [List.nil_append] at heq
        obtain ⟨hx, hrest⟩ := List.cons_eq_cons.mp heq
        subst hx
        subst hrest
        simp only [activeNotes]
        rw [if_pos ⟨h1, h2, h3⟩]
        rcases hoff : noteOffTime x rest with _ | off
        · simp only [hoff]
          exact List.mem_cons_self _ _
        · simp only [hoff]
          rw [if_pos (h4 off hoff)]
          exact List.mem_cons_self _ _
      | cons y pre' =>
        rw [List.cons_append] at heq
        obtain ⟨hx, hrest⟩ := List.cons_eq_cons.mp heq
        exact activeNotes_cons_mem x (ih.mpr ⟨pre', post, hrest, h1, h2, h3, h4⟩)

lemma activeNotes_subset {seq : List MidiEvent} {t : ℚ} {e : MidiEvent}
    (h : e ∈ activeNotes seq t) : e ∈ seq := by
  obtain ⟨pre, post, heq, -⟩ := mem_activeNotes.mp h
  rw [heq]
  exact List.mem_append.mpr (Or.inr (List.mem_cons_self _ _))

lemma activeNotes_time_le {seq : List MidiEvent} {t : ℚ} {e : MidiEvent}
    (h : e ∈ activeNotes seq t) : (e.time : ℚ) ≤ t := by
  obtain ⟨pre, post, -, ht, -⟩ := mem_activeNotes.mp h
  exact ht

lemma mostRecent_mem (cur : MidiEvent) (rest : List MidiEvent) :
    mostRecent cur rest ∈ cur :: rest := by
  induction rest generalizing cur with
  | nil => exact List.mem_singleton.mpr rfl
  | cons e rest ih =>
    rw [mostRecent]
    rcases List.mem_cons.mp (ih (if cur.time < e.time then e else cur)) with h | h
    · rw [h]
      split
      · exact List.mem_cons_of_mem _ (List.mem_cons_self _ _)
      · exact List.mem_cons_self _ _
    · exact List.mem_cons_of_mem _ (List.mem_cons_of_mem _ h)

lemma mix_with_midi_miss (parse : String → Option ParsedMidi) (s : MixSession)
    {midi_path : String} (frame fps : ℕ) (mode : TriggerMode) (mixS dr : ℚ)
    (h1 : midi_path ≠ "") (h2 : s.cached_midi_path ≠ some midi_path) :
    (mix_with_midi parse s midi_path frame fps mode mixS dr).parses = 1 ∧
    (mix_with_midi parse s midi_path frame fps mode mixS dr).session.midi_data = parse midi_path ∧
    (mix_with_midi parse s midi_path frame fps mode mixS dr).session.cached_midi_path = some midi_path := by
  simp only [mix_with_midi]
  simp [h1, h2]

lemma mix_with_midi_hit (parse : String → Option ParsedMidi) (s : MixSession)
    {midi_path : String} (frame fps : ℕ) (mode : TriggerMode) (mixS dr : ℚ)
    (h : ¬(midi_path ≠ "" ∧ s.cached_midi_path ≠ some midi_path)) :
    (mix_with_midi parse s midi_path frame fps mode mixS dr).parses = 0 ∧
    (mix_with_midi parse s midi_path frame fps mode mixS dr).session.midi_data = s.midi_data ∧
    (mix_with_midi parse s midi_path frame fps mode mixS dr).session.cached_midi_path = s.cached_midi_path := by
  simp only [mix_with_midi]
  simp [h]

lemma mix_with_midi_no_reparse_eq (parse : String → Option ParsedMidi) (s : MixSession)
    (midi_path : String) (frame fps : ℕ) (mode : TriggerMode) (mixS dr : ℚ)
    (h : ¬(midi_path ≠ "" ∧ s.cached_midi_path ≠ some midi_path)) :
    mix_with_midi parse s midi_path frame fps mode mixS dr =
      ⟨⟨s.midi_data, s.cached_midi_path,
        stateStrengths s.midi_data s.track_states frame fps mode mixS dr, frame⟩,
       stateStrengths s.midi_data s.track_states frame fps mode mixS dr,
       mdBpm s.midi_data, 0⟩ := by
  simp only [mix_with_midi, if_neg h]

lemma mix_with_midi_reparse_eq (parse : String → Option ParsedMidi) (s : MixSession)
    (midi_path : String) (frame fps : ℕ) (mode : TriggerMode) (mixS dr : ℚ)
    (h1 : midi_path ≠ "") (h2 : s.cached_midi_path ≠ some midi_path) :
    mix_with_midi parse s midi_path frame fps mode mixS dr =
      ⟨⟨parse midi_path, some midi_path,
        stateStrengths (parse midi_path) s.track_states frame fps mode mixS dr, frame⟩,
       stateStrengths (parse midi_path) s.track_states frame fps mode mixS dr,
       mdBpm (parse midi_path), 1⟩ := by
  simp only [mix_with_midi, if_pos (And.intro h1 h2)]

lemma updateStates_expand (m : ParsedMidi) (states : List ℚ) (frame fps : ℕ)
    (mode : TriggerMode) (mixS dr : ℚ) :
    updateStates m states frame fps mode mixS dr =
      updateStep m frame fps mode mixS dr
        (updateStep m frame fps mode mixS dr
          (updateStep m frame fps mode mixS dr
            (updateStep m frame fps mode mixS dr states 0) 1) 2) 3 := rfl

end MidiMixer

namespace MidiMixer

/-- C6: an event is in the active set at a tick iff it occurs in the
sequence as a NoteOn with positive velocity at a time `≤` the tick, and
the first later event on the same note that is an explicit NoteOff or has
velocity 0 either does not exist or has a time strictly above the tick. -/
theorem activeNotes_mem_characterization (seq : List MidiEvent) (t : ℚ) (e : MidiEvent) :
    e ∈ activeNotes seq t ↔
      ∃ pre post, seq = pre ++ e :: post ∧
        (e.time : ℚ) ≤ t ∧ e.kind = EventKind.note_on ∧ 0 < e.velocity ∧
        ∀ off, noteOffTime e post = some off → t < (off : ℚ) :=
  mem_activeNotes

/-- C8: the frame-to-tick mapping is exactly
`frame / fps * 1000000 / tempo * ticksPerBeat`, is monotone
non-decreasing in the frame, and scales linearly with `1 / fps`. -/
theorem frameToTicks_formula_mono_scaling (frame frame' fps tempo tpb : ℚ)
    (hframe : 0 ≤ frame) (hle : frame ≤ frame')
    (hfps : 0 < fps) (htempo : 0 < tempo) (htpb : 0 < tpb) :
    frameToTicks frame fps tempo tpb = frame / fps * 1000000 / tempo * tpb ∧
    frameToTicks frame fps tempo tpb ≤ frameToTicks frame' fps tempo tpb ∧
    frameToTicks frame fps tempo tpb = 1 / fps * frameToTicks frame 1 tempo tpb := by
  have hrw : ∀ f : ℚ, frameToTicks f fps tempo tpb = f * (1000000 * tpb / (fps * tempo)) := by
    intro f
    unfold frameToTicks
    ring
  refine ⟨rfl, ?_, by unfold frameToTicks; ring⟩
  rw [hrw, hrw]
  apply mul_le_mul_of_nonneg_right hle
  positivity

/-- Witness for C8 at frame 15 vs 60, 30 fps, tempo 500000, 480 tpb. -/
theorem frameToTicks_formula_mono_scaling_witness :
    frameToTicks 15 30 500000 480 = 15 / 30 * 1000000 / 500000 * 480 ∧
    frameToTicks 15 30 500000 480 ≤ frameToTicks 60 30 500000 480 ∧
    frameToTicks 15 30 500000 480 = 1 / 30 * frameToTicks 15 1 500000 480 :=
  frameToTicks_formula_mono_scaling 15 60 30 500000 480 (by norm_num) (by norm_num)
    (by norm_num) (by norm_num) (by norm_num)

/-- C5: two successive updates with the same non-empty path perform
exactly one parse (the second call parses nothing and leaves the cached
data and path unchanged); a following update with a different non-empty
path performs exactly one re-parse. -/
theorem mix_with_midi_caching (parse : String → Option ParsedMidi) (s : MixSession)
    (p q : String) (frame fps : ℕ) (mode : TriggerMode) (mixS dr : ℚ)
    (hp : p ≠ "") (hcp : s.cached_midi_path ≠ some p) (hq : q ≠ "") (hqp : q ≠ p) :
    (mix_with_midi parse s p frame fps mode mixS dr).parses = 1 ∧
    (mix_with_midi parse (mix_with_midi parse s p frame fps mode mixS dr).session
      p frame fps mode mixS dr).parses = 0 ∧
    (mix_with_midi parse (mix_with_midi parse s p frame fps mode mixS dr).session
      p frame fps mode mixS dr).session.midi_data =
      (mix_with_midi parse s p frame fps mode mixS dr).session.midi_data ∧
    (mix_with_midi parse (mix_with_midi parse s p frame fps mode mixS dr).session
      p frame fps mode mixS dr).session.cached_midi_path =
      (mix_with_midi parse s p frame fps mode mixS dr).session.cached_midi_path ∧
    (mix_with_midi parse (mix_with_midi parse (mix_with_midi parse s p frame fps mode mixS dr).session
      p frame fps mode mixS dr).session q frame fps mode mixS dr).parses = 1 := by
  obtain ⟨m1, m2, m3⟩ := mix_with_midi_miss parse s frame fps mode mixS dr hp hcp
  have hhit : ¬(p ≠ "" ∧ (mix_with_midi parse s p frame fps mode mixS dr).session.cached_midi_path ≠ some p) := by
    rw [m3]
    simp
  obtain ⟨h1, h2, h3⟩ :=
    mix_with_midi_hit parse (mix_with_midi parse s p frame fps mode mixS dr).session frame fps mode mixS dr hhit
  refine ⟨m1, h1, h2, h3, ?_⟩
  have hq2 : (mix_with_midi parse (mix_with_midi parse s p frame fps mode mixS dr).session
      p frame fps mode mixS dr).session.cached_midi_path ≠ some q := by
    rw [h3, m3]
    simp only [ne_eq, Option.some.injEq]
    exact fun h => hqp h.symm
  exact (mix_with_midi_miss parse _ frame fps mode mixS dr hq hq2).1

/-- Witness for C5 on a fresh session with paths "a.mid" and "b.mid". -/
theorem mix_with_midi_caching_witness :
    (mix_with_midi (fun _ => none) MixSession.init "a.mid" 0 30 TriggerMode.hold 1 2).parses = 1 ∧
    (mix_with_midi (fun _ => none) (mix_with_midi (fun _ => none) MixSession.init "a.mid" 0 30 TriggerMode.hold 1 2).session
      "a.mid" 0 30 TriggerMode.hold 1 2).parses = 0 ∧
    (mix_with_midi (fun _ => none) (mix_with_midi (fun _ => none) MixSession.init "a.mid" 0 30 TriggerMode.hold 1 2).session
      "a.mid" 0 30 TriggerMode.hold 1 2).session.midi_data =
      (mix_with_midi (fun _ => none) MixSession.init "a.mid" 0 30 TriggerMode.hold 1 2).session.midi_data ∧
    (mix_with_midi (fun _ => none) (mix_with_midi (fun _ => none) MixSession.init "a.mid" 0 30 TriggerMode.hold 1 2).session
      "a.mid" 0 30 TriggerMode.hold 1 2).session.cached_midi_path =
      (mix_with_midi (fun _ => none) MixSession.init "a.mid" 0 30 TriggerMode.hold 1 2).session.cached_midi_path ∧
    (mix_with_midi (fun _ => none) (mix_with_midi (fun _ => none) (mix_with_midi (fun _ => none) MixSession.init "a.mid" 0 30 TriggerMode.hold 1 2).session
      "a.mid" 0 30 TriggerMode.hold 1 2).session "b.mid" 0 30 TriggerMode.hold 1 2).parses = 1 :=
  mix_with_midi_caching (fun _ => none) MixSession.init "a.mid" "b.mid" 0 30 TriggerMode.hold 1 2
    (by decide) (by decide) (by decide) (by decide)

end MidiMixer

namespace MidiMixer

/-- C9: after a failed parse of a non-empty path, the path is still
cached with an absent parse result, so a repeat call with the same path
performs no parse attempt and keeps using the absent result. -/
theorem mix_with_midi_failed_parse_cached (parse : String → Option ParsedMidi)
    (s : MixSession) (p : String) (frame fps : ℕ) (mode : TriggerMode) (mixS dr : ℚ)
    (hp : p ≠ "") (hcp : s.cached_midi_path ≠ some p) (hfail : parse p = none) :
    (mix_with_midi parse s p frame fps mode mixS dr).parses = 1 ∧
    (mix_with_midi parse s p frame fps mode mixS dr).session.cached_midi_path = some p ∧
    (mix_with_midi parse s p frame fps mode mixS dr).session.midi_data = none ∧
    (mix_with_midi parse (mix_with_midi parse s p frame fps mode mixS dr).session
      p frame fps mode mixS dr).parses = 0 ∧
    (mix_with_midi parse (mix_with_midi parse s p frame fps mode mixS dr).session
      p frame fps mode mixS dr).session.midi_data = none ∧
    (mix_with_midi parse (mix_with_midi parse s p frame fps mode mixS dr).session
      p frame fps mode mixS dr).session.cached_midi_path = some p := by
  obtain ⟨m1, m2, m3⟩ := mix_with_midi_miss parse s frame fps mode mixS dr hp hcp
  have hmd : (mix_with_midi parse s p frame fps mode mixS dr).session.midi_data = none := by
    rw [m2, hfail]
  have hhit : ¬(p ≠ "" ∧ (mix_with_midi parse s p frame fps mode mixS dr).session.cached_midi_path ≠ some p) := by
    rw [m3]
    simp
  obtain ⟨h1, h2, h3⟩ :=
    mix_with_midi_hit parse (mix_with_midi parse s p frame fps mode mixS dr).session frame fps mode mixS dr hhit
  exact ⟨m1, m3, hmd, h1, h2.trans hmd, h3.trans m3⟩

/-- Witness for C9 with an always-failing parser on path "a.mid". -/
theorem mix_with_midi_failed_parse_cached_witness :
    (mix_with_midi (fun _ => none) MixSession.init "a.mid" 0 30 TriggerMode.hold 1 2).parses = 1 ∧
    (mix_with_midi (fun _ => none) MixSession.init "a.mid" 0 30 TriggerMode.hold 1 2).session.cached_midi_path = some "a.mid" ∧
    (mix_with_midi (fun _ => none) MixSession.init "a.mid" 0 30 TriggerMode.hold 1 2).session.midi_data = none ∧
    (mix_with_midi (fun _ => none) (mix_with_midi (fun _ => none) MixSession.init "a.mid" 0 30 TriggerMode.hold 1 2).session
      "a.mid" 0 30 TriggerMode.hold 1 2).parses = 0 ∧
    (mix_with_midi (fun _ => none) (mix_with_midi (fun _ => none) MixSession.init "a.mid" 0 30 TriggerMode.hold 1 2).session
      "a.mid" 0 30 TriggerMode.hold 1 2).session.midi_data = none ∧
    (mix_with_midi (fun _ => none) (mix_with_midi (fun _ => none) MixSession.init "a.mid" 0 30 TriggerMode.hold 1 2).session
      "a.mid" 0 30 TriggerMode.hold 1 2).session.cached_midi_path = some "a.mid" :=
  mix_with_midi_failed_parse_cached (fun _ => none) MixSession.init "a.mid" 0 30 TriggerMode.hold 1 2
    (by decide) (by decide) rfl

/-- C2 counterexample: a session that previously parsed a file (tempo
600000 µs/beat, i.e. 100 BPM, one track with a NoteOn at tick 0) and is
then updated with an empty path still reports the cached file's BPM and a
nonzero first-track strength, not all-zero strengths with BPM 120. -/
theorem mix_with_midi_empty_path_keeps_cache_cex :
    (mix_with_midi (fun _ => none)
      ⟨some ⟨[[⟨0, EventKind.note_on, 60, 127⟩]], 600000, 480, 100⟩, some "a.mid", [0, 0, 0, 0], 0⟩
      "" 0 30 TriggerMode.hold 1 2).bpm = 100 ∧
    (mix_with_midi (fun _ => none)
      ⟨some ⟨[[⟨0, EventKind.note_on, 60, 127⟩]], 600000, 480, 100⟩, some "a.mid", [0, 0, 0, 0], 0⟩
      "" 0 30 TriggerMode.hold 1 2).strengths = [1, 0, 0, 0] := by
  have hupd := mix_with_midi_no_reparse_eq (fun _ : String => (none : Option ParsedMidi))
    ⟨some ⟨[[⟨0, EventKind.note_on, 60, 127⟩]], 600000, 480, 100⟩, some "a.mid", [0, 0, 0, 0], 0⟩
    "" 0 30 TriggerMode.hold 1 2 (by decide)
  rw [hupd]
  refine ⟨rfl, ?_⟩
  have hmt : frameToTicks (0 : ℚ) (30 : ℚ) 600000 480 = 0 := by
    norm_num [frameToTicks]
  have hstr : strengthFromActive [⟨0, EventKind.note_on, 60, 127⟩] 0 TriggerMode.hold 480 2 = 1 := by
    decide
  simp only [stateStrengths, updateStates_expand]
  norm_num [updateStep, get_track_strength_at_frame, hmt, hstr]

/-- C2 amended: an empty path performs no parse, and on a session that
has no previously parsed MIDI and all-zero stored strengths (as after
`__init__`), it yields all-zero strengths with BPM 120. -/
theorem mix_with_midi_empty_path (parse : String → Option ParsedMidi) (s : MixSession)
    (frame fps : ℕ) (mode : TriggerMode) (mixS dr : ℚ)
    (hmd : s.midi_data = none) (hts : s.track_states = [0, 0, 0, 0]) :
    (mix_with_midi parse s "" frame fps mode mixS dr).parses = 0 ∧
    (mix_with_midi parse s "" frame fps mode mixS dr).strengths = [0, 0, 0, 0] ∧
    (mix_with_midi parse s "" frame fps mode mixS dr).bpm = 120 := by
  simp only [mix_with_midi]
  simp [hmd, hts, stateStrengths, mdBpm]

/-- Witness for the amended C2 on a fresh session. -/
theorem mix_with_midi_empty_path_witness :
    (mix_with_midi (fun _ => none) MixSession.init "" 7 30 TriggerMode.velocity 1 2).parses = 0 ∧
    (mix_with_midi (fun _ => none) MixSession.init "" 7 30 TriggerMode.velocity 1 2).strengths = [0, 0, 0, 0] ∧
    (mix_with_midi (fun _ => none) MixSession.init "" 7 30 TriggerMode.velocity 1 2).bpm = 120 :=
  mix_with_midi_empty_path (fun _ => none) MixSession.init 7 30 TriggerMode.velocity 1 2 rfl rfl

end MidiMixer

namespace MidiMixer

lemma updateStep_getD_stable (m : ParsedMidi) (frame fps : ℕ) (mode : TriggerMode)
    (mixS dr : ℚ) (st : List ℚ) (j i : ℕ) (hi : m.tracks.length ≤ i) :
    (updateStep m frame fps mode mixS dr st j).getD i 0 = st.getD i 0 := by
  unfold updateStep
  split
  · next h =>
    have hne : j ≠ i := Nat.ne_of_lt (lt_of_lt_of_le h hi)
    simp [List.getD_eq_getElem?_getD, List.getElem?_set_ne hne]
  · rfl

lemma updateStates_getD_stable (m : ParsedMidi) (states : List ℚ) (frame fps : ℕ)
    (mode : TriggerMode) (mixS dr : ℚ) (i : ℕ) (hi : m.tracks.length ≤ i) :
    (updateStates m states frame fps mode mixS dr).getD i 0 = states.getD i 0 := by
  rw [updateStates_expand,
    updateStep_getD_stable m frame fps mode mixS dr _ 3 i hi,
    updateStep_getD_stable m frame fps mode mixS dr _ 2 i hi,
    updateStep_getD_stable m frame fps mode mixS dr _ 1 i hi,
    updateStep_getD_stable m frame fps mode mixS dr _ 0 i hi]

lemma stateStrengths_getD_stable (md : Option ParsedMidi) (states : List ℚ)
    (frame fps : ℕ) (mode : TriggerMode) (mixS dr : ℚ) (i : ℕ)
    (habs : ∀ m, md = some m → m.tracks.length ≤ i) :
    (stateStrengths md states frame fps mode mixS dr).getD i 0 = states.getD i 0 := by
  cases md with
  | none => rfl
  | some m => exact updateStates_getD_stable m states frame fps mode mixS dr i (habs m rfl)

lemma mix_with_midi_strengths_eq (parse : String → Option ParsedMidi) (s : MixSession)
    (midi_path : String) (frame fps : ℕ) (mode : TriggerMode) (mixS dr : ℚ) :
    (mix_with_midi parse s midi_path frame fps mode mixS dr).strengths =
      stateStrengths (mix_with_midi parse s midi_path frame fps mode mixS dr).session.midi_data
        s.track_states frame fps mode mixS dr := rfl

/-- C3 counterexample: a session whose 4th stored strength is 1/2 is
updated with a path parsing to a single-track file; the 4th slot of the
returned strengths still holds 1/2, not the 0 the claim requires. -/
theorem mix_with_midi_stale_slot_cex :
    (mix_with_midi (fun _ => some ⟨[[]], 500000, 480, 120⟩)
      ⟨none, some "old.mid", [0, 0, 0, 1/2], 0⟩
      "new.mid" 0 30 TriggerMode.hold 1 2).strengths.getD 3 0 = 1/2 ∧
    (mix_with_midi (fun _ => some ⟨[[]], 500000, 480, 120⟩)
      ⟨none, some "old.mid", [0, 0, 0, 1/2], 0⟩
      "new.mid" 0 30 TriggerMode.hold 1 2).strengths.getD 3 0 ≠ 0 := by
  have hupd := mix_with_midi_reparse_eq (fun _ : String => some (⟨[[]], 500000, 480, 120⟩ : ParsedMidi))
    ⟨none, some "old.mid", [0, 0, 0, 1/2], 0⟩ "new.mid" 0 30 TriggerMode.hold 1 2
    (by decide) (by decide)
  rw [hupd]
  have hval : (stateStrengths (some ⟨[[]], 500000, 480, 120⟩) [0, 0, 0, 1/2]
      0 30 TriggerMode.hold 1 2).getD 3 0 = 1/2 := by
    rw [stateStrengths, updateStates_expand]
    norm_num [updateStep, get_track_strength_at_frame, List.getD]
  exact ⟨hval, by rw [hval]; norm_num⟩

/-- C3 amended: a track-strength slot with no corresponding parsed track
is left untouched by the update — it retains its previous stored value
(hence it is 0 precisely when it already was 0, e.g. on a fresh session). -/
theorem mix_with_midi_absent_slot_keeps_value (parse : String → Option ParsedMidi)
    (s : MixSession) (midi_path : String) (frame fps : ℕ) (mode : TriggerMode)
    (mixS dr : ℚ) (i : ℕ) (hi : i < 4)
    (habs : ∀ m : ParsedMidi,
      (mix_with_midi parse s midi_path frame fps mode mixS dr).session.midi_data = some m →
      m.tracks.length ≤ i) :
    (mix_with_midi parse s midi_path frame fps mode mixS dr).strengths.getD i 0 =
      s.track_states.getD i 0 := by
  rw [mix_with_midi_strengths_eq]
  exact stateStrengths_getD_stable _ _ _ _ _ _ _ _ habs

/-- Witness for the amended C3: a fresh session updated with a
single-track file leaves slot 3 at its prior value 0. -/
theorem mix_with_midi_absent_slot_keeps_value_witness :
    (mix_with_midi (fun _ => some ⟨[[]], 500000, 480, 120⟩) MixSession.init
      "a.mid" 0 30 TriggerMode.hold 1 2).strengths.getD 3 0 =
      MixSession.init.track_states.getD 3 0 := by
  apply mix_with_midi_absent_slot_keeps_value
  · decide
  · intro m hm
    rw [mix_with_midi_reparse_eq (fun _ : String => some (⟨[[]], 500000, 480, 120⟩ : ParsedMidi))
      MixSession.init "a.mid" 0 30 TriggerMode.hold 1 2 (by decide) (by decide)] at hm
    simp only [Option.some.injEq] at hm
    rw [← hm]
    decide

end MidiMixer

namespace MidiMixer

/-- C1 counterexample: a track whose single note (NoteOn at tick 0,
NoteOff at tick 10) has ended by tick 20 has an odd historical NoteOn
count (1), yet Toggle-mode strength is 0, not 1: the empty-active-set
early return fires before the Toggle branch. -/
theorem toggle_empty_active_cex :
    noteOnCount [⟨0, EventKind.note_on, 60, 100⟩, ⟨10, EventKind.note_off, 60, 0⟩]
      (frameToTicks 20 1 1000000 1) % 2 = 1 ∧
    activeNotes [⟨0, EventKind.note_on, 60, 100⟩, ⟨10, EventKind.note_off, 60, 0⟩]
      (frameToTicks 20 1 1000000 1) = [] ∧
    get_track_strength_at_frame [⟨0, EventKind.note_on, 60, 100⟩, ⟨10, EventKind.note_off, 60, 0⟩]
      20 1 TriggerMode.toggle 1 1000000 2 = 0 := by
  have hmt : frameToTicks (20 : ℚ) 1 1000000 1 = 20 := by
    norm_num [frameToTicks]
  rw [hmt]
  refine ⟨by decide, by decide, ?_⟩
  simp only [get_track_strength_at_frame]
  rw [hmt]
  decide

/-- C1 amended: whenever the active-note set at the tick position is
nonempty, Toggle-mode strength is determined by the parity of NoteOn
events (velocity > 0) with time ≤ tick position in the entire sequence:
1 for odd, 0 for even; when the active set is empty the function returns
0 regardless of that parity. -/
theorem toggle_parity_of_active_nonempty (track : List MidiEvent)
    (frame fps tempo tpb dr : ℚ)
    (h : activeNotes track (frameToTicks frame fps tempo tpb) ≠ []) :
    get_track_strength_at_frame track frame fps TriggerMode.toggle tpb tempo dr =
      if noteOnCount track (frameToTicks frame fps tempo tpb) % 2 = 1 then 1 else 0 := by
  cases track with
  | nil => simp [activeNotes] at h
  | cons x rest =>
    simp only [get_track_strength_at_frame, strengthFromActive]
    rcases ha : activeNotes (x :: rest) (frameToTicks frame fps tempo tpb) with _ | ⟨a, as⟩
    · exact absurd ha h
    · simp only [ha]

/-- Witness for the amended C1: one sounding NoteOn at tick 0, queried at
tick 0, gives an odd count and Toggle strength 1. -/
theorem toggle_parity_of_active_nonempty_witness :
    activeNotes [⟨0, EventKind.note_on, 60, 100⟩] (frameToTicks 0 1 1000000 1) ≠ [] ∧
    get_track_strength_at_frame [⟨0, EventKind.note_on, 60, 100⟩] 0 1 TriggerMode.toggle 1 1000000 2 =
      if noteOnCount [⟨0, EventKind.note_on, 60, 100⟩] (frameToTicks 0 1 1000000 1) % 2 = 1
      then 1 else 0 := by
  have hmt : frameToTicks (0 : ℚ) 1 1000000 1 = 0 := by
    norm_num [frameToTicks]
  have hne : activeNotes [⟨0, EventKind.note_on, 60, 100⟩] (frameToTicks 0 1 1000000 1) ≠ [] := by
    rw [hmt]
    decide
  exact ⟨hne, toggle_parity_of_active_nonempty _ 0 1 1000000 1 2 hne⟩

end MidiMixer

namespace MidiMixer

/-- C7: for a fixed most recent trigger (velocity, time) and fixed
positive resolution and decay rate in the declared [0.1, 10] range, the
Pulse-mode strength is non-increasing as the tick position grows, and is
exactly 0 once elapsed beats times the decay rate reach 1. -/
theorem pulseStrength_antitone_and_zero (v time : ℕ) (tpb dr t1 t2 : ℚ)
    (htpb : 0 < tpb) (hdr1 : 1/10 ≤ dr) (hdr2 : dr ≤ 10) (ht : t1 ≤ t2) :
    pulseStrength v time t2 tpb dr ≤ pulseStrength v time t1 tpb dr ∧
    (1 ≤ (t2 - (time : ℚ)) / tpb * dr → pulseStrength v time t2 tpb dr = 0) := by
  have hdr0 : (0 : ℚ) ≤ dr := le_trans (by norm_num) hdr1
  constructor
  · unfold pulseStrength
    apply mul_le_mul_of_nonneg_left _ (by positivity)
    apply max_le_max le_rfl
    have hdiv : (t1 - (time : ℚ)) / tpb * dr ≤ (t2 - (time : ℚ)) / tpb * dr := by
      apply mul_le_mul_of_nonneg_right _ hdr0
      exact (div_le_div_iff_of_pos_right htpb).mpr (by linarith)
    linarith
  · intro h1
    unfold pulseStrength
    have hle : 1 - (t2 - (time : ℚ)) / tpb * dr ≤ 0 := by linarith
    rw [max_eq_left hle, mul_zero]

/-- Witness for C7: velocity 100, trigger at tick 0, 480 tpb, decay rate
2, ticks 480 then 960 (two elapsed beats). -/
theorem pulseStrength_antitone_and_zero_witness :
    pulseStrength 100 0 960 480 2 ≤ pulseStrength 100 0 480 480 2 ∧
    (1 ≤ ((960 : ℚ) - ((0 : ℕ) : ℚ)) / 480 * 2 → pulseStrength 100 0 960 480 2 = 0) :=
  pulseStrength_antitone_and_zero 100 0 480 2 480 960 (by norm_num) (by norm_num)
    (by norm_num) (by norm_num)

lemma strengthFromActive_bounds (track : List MidiEvent) (midiTime : ℚ)
    (mode : TriggerMode) (tpb dr : ℚ) (htpb : 0 < tpb) (hdr : 0 ≤ dr)
    (hvel : ∀ e ∈ track, e.velocity ≤ 127) :
    0 ≤ strengthFromActive track midiTime mode tpb dr ∧
    strengthFromActive track midiTime mode tpb dr ≤ 1 := by
  unfold strengthFromActive
  rcases ha : activeNotes track midiTime with _ | ⟨a, as⟩
  · norm_num
  · have hmem : ∀ e ∈ a :: as, e ∈ activeNotes track midiTime := by
      intro e he
      rw [ha]
      exact he
    cases mode with
    | velocity =>
      have hlen : (0 : ℚ) < ((a :: as).length : ℚ) := by
        exact_mod_cast List.length_pos.mpr (List.cons_ne_nil a as)
      constructor
      · apply div_nonneg _ hlen.le
        apply List.sum_nonneg
        intro x hx
        obtain ⟨n, -, rfl⟩ := List.mem_map.mp hx
        positivity
      · rw [div_le_one hlen]
        have hsum : ((a :: as).map (fun n => (n.velocity : ℚ) / 127)).sum ≤
            ((a :: as).map (fun n => (n.velocity : ℚ) / 127)).length • (1 : ℚ) := by
          apply List.sum_le_card_nsmul
          intro x hx
          obtain ⟨n, hn, rfl⟩ := List.mem_map.mp hx
          rw [div_le_one (by norm_num)]
          exact_mod_cast hvel n (activeNotes_subset (hmem n hn))
        calc ((a :: as).map (fun n => (n.velocity : ℚ) / 127)).sum
            ≤ ((a :: as).map (fun n => (n.velocity : ℚ) / 127)).length • (1 : ℚ) := hsum
          _ = ((a :: as).length : ℚ) := by
              rw [List.length_map, nsmul_eq_mul, mul_one]
    | pulse =>
      have hmr : mostRecent a as ∈ activeNotes track midiTime :=
        hmem _ (mostRecent_mem a as)
      have h1 : ((mostRecent a as).time : ℚ) ≤ midiTime := activeNotes_time_le hmr
      have h2 : (mostRecent a as).velocity ≤ 127 := hvel _ (activeNotes_subset hmr)
      have helapsed : 0 ≤ (midiTime - ((mostRecent a as).time : ℚ)) / tpb * dr := by
        apply mul_nonneg _ hdr
        apply div_nonneg (by linarith) htpb.le
      unfold pulseStrength
      constructor
      · positivity
      · apply mul_le_one₀
        · rw [div_le_one (by norm_num)]
          exact_mod_cast h2
        · positivity
        · exact max_le (by norm_num) (by linarith)
    | hold => norm_num
    | toggle => split_ifs <;> norm_num

lemma get_track_strength_bounds (track : List MidiEvent) (frame fps : ℚ)
    (mode : TriggerMode) (tpb tempo dr : ℚ) (htpb : 0 < tpb) (hdr : 0 ≤ dr)
    (hvel : ∀ e ∈ track, e.velocity ≤ 127) :
    0 ≤ get_track_strength_at_frame track frame fps mode tpb tempo dr ∧
    get_track_strength_at_frame track frame fps mode tpb tempo dr ≤ 1 := by
  cases track with
  | nil => simp [get_track_strength_at_frame]
  | cons x rest =>
    simp only [get_track_strength_at_frame]
    exact strengthFromActive_bounds _ _ mode _ dr htpb hdr hvel

lemma updateStep_mem_bounds (m : ParsedMidi) (frame fps : ℕ) (mode : TriggerMode)
    (mixS dr : ℚ) (st : List ℚ) (j : ℕ) (hwf : WFMidi m) (hdr : 0 ≤ dr)
    (hmix0 : 0 ≤ mixS) (hmix2 : mixS ≤ 2)
    (hst : ∀ x ∈ st, 0 ≤ x ∧ x ≤ 2) :
    ∀ x ∈ updateStep m frame fps mode mixS dr st j, 0 ≤ x ∧ x ≤ 2 := by
  unfold updateStep
  split
  · next h =>
    intro x hx
    rcases List.mem_or_eq_of_mem_set hx with hmem | rfl
    · exact hst x hmem
    · have hb := get_track_strength_bounds (m.tracks.get ⟨j, h⟩) (frame : ℚ) (fps : ℚ)
        mode m.ticks_per_beat m.tempo dr hwf.2.1 hdr
        (hwf.2.2 _ (List.get_mem m.tracks j h))
      refine ⟨mul_nonneg hb.1 hmix0, ?_⟩
      calc get_track_strength_at_frame (m.tracks.get ⟨j, h⟩) (frame : ℚ) (fps : ℚ)
            mode m.ticks_per_beat m.tempo dr * mixS
          ≤ 1 * 2 := mul_le_mul hb.2 hmix2 hmix0 zero_le_one
        _ = 2 := by norm_num
  · exact hst

lemma stateStrengths_bounds (md : Option ParsedMidi) (states : List ℚ)
    (frame fps : ℕ) (mode : TriggerMode) (mixS dr : ℚ)
    (hwf : ∀ m, md = some m → WFMidi m) (hdr : 0 ≤ dr)
    (hmix0 : 0 ≤ mixS) (hmix2 : mixS ≤ 2)
    (hst : ∀ x ∈ states, 0 ≤ x ∧ x ≤ 2) :
    ∀ x ∈ stateStrengths md states frame fps mode mixS dr, 0 ≤ x ∧ x ≤ 2 := by
  cases md with
  | none => exact hst
  | some m =>
    have hw := hwf m rfl
    rw [stateStrengths, updateStates_expand]
    exact updateStep_mem_bounds m frame fps mode mixS dr _ 3 hw hdr hmix0 hmix2
      (updateStep_mem_bounds m frame fps mode mixS dr _ 2 hw hdr hmix0 hmix2
        (updateStep_mem_bounds m frame fps mode mixS dr _ 1 hw hdr hmix0 hmix2
          (updateStep_mem_bounds m frame fps mode mixS dr _ 0 hw hdr hmix0 hmix2 hst)))

end MidiMixer

namespace MidiMixer

/-- C4 counterexample: a single active note of velocity 127 in Velocity
mode with the maximal declared mix strength 2 stores 2 in the first slot,
outside the claimed [0, 1] range. -/
theorem mix_with_midi_track_states_above_one_cex :
    (mix_with_midi (fun _ => some ⟨[[⟨0, EventKind.note_on, 60, 127⟩]], 500000, 480, 120⟩)
      MixSession.init "a.mid" 0 30 TriggerMode.velocity 2 2).session.track_states.getD 0 0 = 2 ∧
    ¬ (mix_with_midi (fun _ => some ⟨[[⟨0, EventKind.note_on, 60, 127⟩]], 500000, 480, 120⟩)
      MixSession.init "a.mid" 0 30 TriggerMode.velocity 2 2).session.track_states.getD 0 0 ≤ 1 := by
  have hupd := mix_with_midi_reparse_eq
    (fun _ : String => some (⟨[[⟨0, EventKind.note_on, 60, 127⟩]], 500000, 480, 120⟩ : ParsedMidi))
    MixSession.init "a.mid" 0 30 TriggerMode.velocity 2 2 (by decide) (by decide)
  rw [hupd]
  simp only [MixSession.init]
  have hmt : frameToTicks (0 : ℚ) (30 : ℚ) 500000 480 = 0 := by
    norm_num [frameToTicks]
  have hact : activeNotes [⟨0, EventKind.note_on, 60, 127⟩] 0 =
      [⟨0, EventKind.note_on, 60, 127⟩] := by decide
  have hstr : strengthFromActive [⟨0, EventKind.note_on, 60, 127⟩] 0 TriggerMode.velocity 480 2 = 1 := by
    simp only [strengthFromActive, hact]
    norm_num
  have hval : (stateStrengths (some ⟨[[⟨0, EventKind.note_on, 60, 127⟩]], 500000, 480, 120⟩)
      [0, 0, 0, 0] 0 30 TriggerMode.velocity 2 2).getD 0 0 = 2 := by
    rw [stateStrengths, updateStates_expand]
    norm_num [updateStep, get_track_strength_at_frame, hmt, hstr, List.getD]
  refine ⟨hval, by rw [hval]; norm_num⟩

end MidiMixer

namespace MidiMixer

/-- C4 amended: for well-formed parsed data (positive tempo/resolution,
velocities ≤ 127), valid inputs in the declared ranges, and prior stored
strengths in [0, 2], the four stored track-strength values lie in [0, 2]
after every update: each freshly written slot is a raw strength in [0, 1]
times the mix strength in [0, 2], and untouched slots keep their prior
in-range values. -/
theorem mix_with_midi_track_states_bounds (parse : String → Option ParsedMidi)
    (s : MixSession) (midi_path : String) (frame fps : ℕ) (mode : TriggerMode)
    (mixS dr : ℚ) (hfps : 1 ≤ fps)
    (hparse : ∀ p m, parse p = some m → WFMidi m)
    (hcached : ∀ m, s.midi_data = some m → WFMidi m)
    (hdr1 : 1/10 ≤ dr) (hdr2 : dr ≤ 10) (hmix0 : 0 ≤ mixS) (hmix2 : mixS ≤ 2)
    (hst : ∀ x ∈ s.track_states, 0 ≤ x ∧ x ≤ 2) (i : ℕ) :
    0 ≤ (mix_with_midi parse s midi_path frame fps mode mixS dr).session.track_states.getD i 0 ∧
    (mix_with_midi parse s midi_path frame fps mode mixS dr).session.track_states.getD i 0 ≤ 2 := by
  have hdr0 : (0 : ℚ) ≤ dr := le_trans (by norm_num) hdr1
  have hwfmd : ∀ m,
      (mix_with_midi parse s midi_path frame fps mode mixS dr).session.midi_data = some m →
      WFMidi m := by
    intro m hm
    by_cases hc : midi_path ≠ "" ∧ s.cached_midi_path ≠ some midi_path
    · rw [(mix_with_midi_miss parse s frame fps mode mixS dr hc.1 hc.2).2.1] at hm
      exact hparse midi_path m hm
    · rw [(mix_with_midi_hit parse s frame fps mode mixS dr hc).2.1] at hm
      exact hcached m hm
  have hall : ∀ x ∈ (mix_with_midi parse s midi_path frame fps mode mixS dr).session.track_states,
      0 ≤ x ∧ x ≤ 2 :=
    stateStrengths_bounds
      (mix_with_midi parse s midi_path frame fps mode mixS dr).session.midi_data
      s.track_states frame fps mode mixS dr hwfmd hdr0 hmix0 hmix2 hst
  by_cases hi : i < (mix_with_midi parse s midi_path frame fps mode mixS dr).session.track_states.length
  · rw [List.getD_eq_getElem _ 0 hi]
    exact hall _ (List.getElem_mem hi)
  · rw [List.getD_eq_default _ 0 (Nat.le_of_not_lt hi)]
    norm_num

/-- Witness for the amended C4: a one-note file updated on a fresh
session in Velocity mode at mix strength 2 keeps slot 0 in [0, 2]. -/
theorem mix_with_midi_track_states_bounds_witness :
    0 ≤ (mix_with_midi (fun _ => some ⟨[[⟨0, EventKind.note_on, 60, 127⟩]], 500000, 480, 120⟩)
      MixSession.init "a.mid" 0 30 TriggerMode.velocity 2 2).session.track_states.getD 0 0 ∧
    (mix_with_midi (fun _ => some ⟨[[⟨0, EventKind.note_on, 60, 127⟩]], 500000, 480, 120⟩)
      MixSession.init "a.mid" 0 30 TriggerMode.velocity 2 2).session.track_states.getD 0 0 ≤ 2 := by
  apply mix_with_midi_track_states_bounds
  · norm_num
  · intro p m hm
    simp only [Option.some.injEq] at hm
    rw [← hm]
    decide
  · intro m hm
    simp only [MixSession.init] at hm
    cases hm
  · norm_num
  · norm_num
  · norm_num
  · norm_num
  · intro x hx
    simp only [MixSession.init, List.mem_cons, List.not_mem_nil, or_false] at hx
    rcases hx with h | h | h | h <;> rw [h] <;> norm_num

end MidiMixer

namespace MidiMixer

lemma forall₂_imp_of_mem {α β : Type} {R S : α → β → Prop} {l1 : List α} {l2 : List β}
    (h : List.Forall₂ R l1 l2) (himp : ∀ a b, a ∈ l1 → R a b → S a b) :
    List.Forall₂ S l1 l2 := by
  induction h with
  | nil => exact List.Forall₂.nil
  | cons hab htail ih =>
    exact List.Forall₂.cons (himp _ _ (List.mem_cons_self _ _) hab)
      (ih (fun a b ha => himp a b (List.mem_cons_of_mem _ ha)))

lemma applyOne_next (cnets : List ControlTuple) (h : Heap) (t : CondEntry) :
    (applyOne cnets h t).1.next = h.next + 1 := rfl

lemma applyOne_entry (cnets : List ControlTuple) (h : Heap) (t : CondEntry) :
    (applyOne cnets h t).2 = ⟨t.tensor, h.next⟩ := rfl

lemma applyOne_mem_new (cnets : List ControlTuple) (h : Heap) (t : CondEntry)
    (ht : t.dict < h.next) :
    (applyOne cnets h t).1.mem h.next = withControl (h.mem t.dict) cnets := by
  simp only [applyOne, Heap.alloc]
  rw [Function.update_same, Function.update_same]

lemma applyOne_mem_old (cnets : List ControlTuple) (h : Heap) (t : CondEntry)
    (a : ℕ) (ha : a ≠ h.next) :
    (applyOne cnets h t).1.mem a = h.mem a := by
  simp only [applyOne, Heap.alloc]
  rw [Function.update_noteq ha, Function.update_noteq ha]

lemma applyAll_spec (cnets : List ControlTuple) :
    ∀ (ts : List CondEntry) (h : Heap), (∀ t ∈ ts, t.dict < h.next) →
      (applyAll cnets h ts).1.next = h.next + ts.length ∧
      (∀ a, a < h.next → (applyAll cnets h ts).1.mem a = h.mem a) ∧
      List.Forall₂ (fun t n => n.tensor = t.tensor ∧ h.next ≤ n.dict ∧
        n.dict < (applyAll cnets h ts).1.next ∧
        (applyAll cnets h ts).1.mem n.dict = withControl (h.mem t.dict) cnets)
        ts (applyAll cnets h ts).2 := by
  intro ts
  induction ts with
  | nil =>
    intro h hwf
    refine ⟨rfl, fun a ha => rfl, List.Forall₂.nil⟩
  | cons t ts ih =>
    intro h hwf
    have ht : t.dict < h.next := hwf t (List.mem_cons_self _ _)
    have hwf1 : ∀ t' ∈ ts, t'.dict < (applyOne cnets h t).1.next := by
      intro t' ht'
      rw [applyOne_next]
      exact lt_trans (hwf t' (List.mem_cons_of_mem _ ht')) (Nat.lt_succ_self _)
    obtain ⟨ihn, ihf, ihF⟩ := ih (applyOne cnets h t).1 hwf1
    have hnext : (applyAll cnets h (t :: ts)).1 = (applyAll cnets (applyOne cnets h t).1 ts).1 := rfl
    have hout : (applyAll cnets h (t :: ts)).2 =
        (applyOne cnets h t).2 :: (applyAll cnets (applyOne cnets h t).1 ts).2 := rfl
    refine ⟨?_, ?_, ?_⟩
    · rw [hnext, ihn, applyOne_next]
      simp only [List.length_cons]
      ring
    · intro a ha
      rw [hnext, ihf a (by rw [applyOne_next]; exact lt_trans ha (Nat.lt_succ_self _))]
      exact applyOne_mem_old cnets h t a (Nat.ne_of_lt ha)
    · rw [hout, hnext]
      refine List.Forall₂.cons ?_ ?_
      · rw [applyOne_entry]
        refine ⟨rfl, le_refl _, ?_, ?_⟩
        · rw [ihn, applyOne_next]
          exact Nat.lt_of_lt_of_le (Nat.lt_succ_self _) (Nat.le_add_right _ _)
        · rw [ihf h.next (by rw [applyOne_next]; exact Nat.lt_succ_self _)]
          exact applyOne_mem_new cnets h t ht
      · apply forall₂_imp_of_mem ihF
        intro t' n ht' hr
        obtain ⟨h1, h2, h3, h4⟩ := hr
        refine ⟨h1, ?_, h3, ?_⟩
        · rw [applyOne_next] at h2
          omega
        · rw [h4, applyOne_mem_old cnets h t t'.dict
            (Nat.ne_of_lt (hwf t' (List.mem_cons_of_mem _ ht')))]

end MidiMixer

namespace MidiMixer

/-- C10: applying a ControlNet (control net and image present, both
strengths positive) never mutates the input conditioning entries' stored
dictionaries — every pre-existing address keeps its value — and the two
returned lists are freshly built: each output entry carries the same
tensor and a newly allocated copied dictionary equal to the original one
with the control tuple list appended under `'control'`. -/
theorem apply_controlnet_no_mutation (h : Heap) (positive negative : List CondEntry)
    (cn img : ℕ) (strength track_strength : ℚ)
    (hpos : ∀ t ∈ positive, t.dict < h.next) (hneg : ∀ t ∈ negative, t.dict < h.next)
    (hs : 0 < strength) (hts : 0 < track_strength) :
    (∀ a, a < h.next →
      (apply_controlnet_to_conditioning h positive negative (some cn) (some img)
        strength track_strength).1.mem a = h.mem a) ∧
    List.Forall₂ (fun t n => n.tensor = t.tensor ∧ h.next ≤ n.dict ∧
      (apply_controlnet_to_conditioning h positive negative (some cn) (some img)
        strength track_strength).1.mem n.dict =
        withControl (h.mem t.dict) [⟨cn, img, strength * track_strength, 0, 1⟩])
      positive
      (apply_controlnet_to_conditioning h positive negative (some cn) (some img)
        strength track_strength).2.1 ∧
    List.Forall₂ (fun t n => n.tensor = t.tensor ∧ h.next ≤ n.dict ∧
      (apply_controlnet_to_conditioning h positive negative (some cn) (some img)
        strength track_strength).1.mem n.dict =
        withControl (h.mem t.dict) [⟨cn, img, strength * track_strength, 0, 1⟩])
      negative
      (apply_controlnet_to_conditioning h positive negative (some cn) (some img)
        strength track_strength).2.2 := by
  have hred : apply_controlnet_to_conditioning h positive negative (some cn) (some img)
      strength track_strength =
      ((applyAll [⟨cn, img, strength * track_strength, 0, 1⟩]
          (applyAll [⟨cn, img, strength * track_strength, 0, 1⟩] h positive).1 negative).1,
        (applyAll [⟨cn, img, strength * track_strength, 0, 1⟩] h positive).2,
        (applyAll [⟨cn, img, strength * track_strength, 0, 1⟩]
          (applyAll [⟨cn, img, strength * track_strength, 0, 1⟩] h positive).1 negative).2) := by
    simp only [apply_controlnet_to_conditioning, if_pos (And.intro hs hts)]
  rw [hred]
  obtain ⟨pn, pf, pF⟩ :=
    applyAll_spec [⟨cn, img, strength * track_strength, 0, 1⟩] positive h hpos
  have hle : h.next ≤ (applyAll [⟨cn, img, strength * track_strength, 0, 1⟩] h positive).1.next := by
    rw [pn]
    exact Nat.le_add_right _ _
  obtain ⟨nn, nf, nF⟩ :=
    applyAll_spec [⟨cn, img, strength * track_strength, 0, 1⟩] negative
      (applyAll [⟨cn, img, strength * track_strength, 0, 1⟩] h positive).1
      (fun t ht => lt_of_lt_of_le (hneg t ht) hle)
  refine ⟨?_, ?_, ?_⟩
  · intro a ha
    rw [nf a (lt_of_lt_of_le ha hle), pf a ha]
  · apply forall₂_imp_of_mem pF
    intro t n ht hr
    obtain ⟨h1, h2, h3, h4⟩ := hr
    exact ⟨h1, h2, by rw [nf n.dict h3, h4]⟩
  · apply forall₂_imp_of_mem nF
    intro t n ht hr
    obtain ⟨h1, h2, h3, h4⟩ := hr
    refine ⟨h1, le_trans hle h2, ?_⟩
    rw [h4, pf t.dict (hneg t ht)]

/-- Witness for C10: a two-address heap, one positive and one negative
entry, control net 1, image 2, both strengths 1. -/
theorem apply_controlnet_no_mutation_witness :
    (∀ a, a < (⟨fun _ => ⟨none, 0⟩, 2⟩ : Heap).next →
      (apply_controlnet_to_conditioning ⟨fun _ => ⟨none, 0⟩, 2⟩ [⟨10, 0⟩] [⟨11, 1⟩]
        (some 1) (some 2) 1 1).1.mem a = (⟨fun _ => ⟨none, 0⟩, 2⟩ : Heap).mem a) ∧
    List.Forall₂ (fun (t n : CondEntry) => n.tensor = t.tensor ∧ (⟨fun _ => ⟨none, 0⟩, 2⟩ : Heap).next ≤ n.dict ∧
      (apply_controlnet_to_conditioning ⟨fun _ => ⟨none, 0⟩, 2⟩ [⟨10, 0⟩] [⟨11, 1⟩]
        (some 1) (some 2) 1 1).1.mem n.dict =
        withControl ((⟨fun _ => ⟨none, 0⟩, 2⟩ : Heap).mem t.dict) [⟨1, 2, 1 * 1, 0, 1⟩])
      ([⟨10, 0⟩] : List CondEntry)
      (apply_controlnet_to_conditioning ⟨fun _ => ⟨none, 0⟩, 2⟩ [⟨10, 0⟩] [⟨11, 1⟩]
        (some 1) (some 2) 1 1).2.1 ∧
    List.Forall₂ (fun (t n : CondEntry) => n.tensor = t.tensor ∧ (⟨fun _ => ⟨none, 0⟩, 2⟩ : Heap).next ≤ n.dict ∧
      (apply_controlnet_to_conditioning ⟨fun _ => ⟨none, 0⟩, 2⟩ [⟨10, 0⟩] [⟨11, 1⟩]
        (some 1) (some 2) 1 1).1.mem n.dict =
        withControl ((⟨fun _ => ⟨none, 0⟩, 2⟩ : Heap).mem t.dict) [⟨1, 2, 1 * 1, 0, 1⟩])
      ([⟨11, 1⟩] : List CondEntry)
      (apply_controlnet_to_conditioning ⟨fun _ => ⟨none, 0⟩, 2⟩ [⟨10, 0⟩] [⟨11, 1⟩]
        (some 1) (some 2) 1 1).2.2 :=
  apply_controlnet_no_mutation ⟨fun _ => ⟨none, 0⟩, 2⟩ [⟨10, 0⟩] [⟨11, 1⟩] 1 2 1 1
    (by intro t ht; simp only [List.mem_singleton] at ht; rw [ht]; decide)
    (by intro t ht; simp only [List.mem_singleton] at ht; rw [ht]; decide)
    (by norm_num) (by norm_num)

end MidiMixer

namespace MidiMixer

/-- Witness for C6: the characterization instantiated at a one-event
track, tick 0 and its NoteOn event. -/
theorem activeNotes_mem_characterization_witness :
    (⟨0, EventKind.note_on, 60, 100⟩ : MidiEvent) ∈
        activeNotes [⟨0, EventKind.note_on, 60, 100⟩] 0 ↔
      ∃ pre post, [(⟨0, EventKind.note_on, 60, 100⟩ : MidiEvent)] =
          pre ++ (⟨0, EventKind.note_on, 60, 100⟩ : MidiEvent) :: post ∧
        (((⟨0, EventKind.note_on, 60, 100⟩ : MidiEvent)).time : ℚ) ≤ 0 ∧
        (⟨0, EventKind.note_on, 60, 100⟩ : MidiEvent).kind = EventKind.note_on ∧
        0 < (⟨0, EventKind.note_on, 60, 100⟩ : MidiEvent).velocity ∧
        ∀ off, noteOffTime ⟨0, EventKind.note_on, 60, 100⟩ post = some off → (0 : ℚ) < (off : ℚ) :=
  activeNotes_mem_characterization [⟨0, EventKind.note_on, 60, 100⟩] 0 ⟨0, EventKind.note_on, 60, 100⟩

end MidiMixer
